import Mathlib

/-!
Verification development for the ZDM command-tree discovery engine.

The definitions below are a shallow embedding of the discovery/parsing code
of the repository.  Two variants of the engine exist in the sources:

* `src/frontend/js/app.js` — the flat engine (top-level scan plus one level
  of subcommand discovery with an idempotent skip).  Its functions are
  embedded at top level under their source names.
* `src/unnamed/part_011` — the deep engine (recursive walk with
  cancellation, pause and flattening).  Its functions are embedded in the
  `Deep` namespace under their source names.

Strings are modelled as their character lists (the sources only ever meet
ASCII shell output, for which JavaScript UTF-16 code units and Lean
characters agree).  JavaScript regular expressions are embedded as explicit
character scanners, alternative by alternative, in source order.
Asynchronous inputs (serial chunks arriving over the WebSocket, wall-clock
time, user cancel/continue clicks) are supplied by an explicit environment;
`console.log` calls and UI rendering are omitted as effect-free.
-/

/-- Character class of the JavaScript regex token `\w`, namely `[A-Za-z0-9_]`. -/
def isWordChar (c : Char) : Bool := c.isAlpha || c.isDigit || c = '_'

/-- Character class `[\w_-]` (word characters plus dash) used by the
subcommand line regexes; with `allowDash = false` it is plain `[\w_]`,
which equals `\w`. -/
def isWordDash (allowDash : Bool) (c : Char) : Bool :=
  isWordChar c || (allowDash && c = '-')

/-- ASCII part of the JavaScript whitespace class `\s` (the sources never
meet the exotic Unicode spaces). -/
def isJsSpace (c : Char) : Bool :=
  c = ' ' || c = '\t' || c = '\n' || c = '\r' || c = '\x0b' || c = '\x0c'

/-- Test whether `pat` occurs at the head of the character list. -/
def clStartsWith : List Char → List Char → Bool
  | _, [] => true
  | [], _ :: _ => false
  | c :: r, p :: ps => c = p && clStartsWith r ps

/-- Test whether `pat` occurs anywhere in the character list, as in the
JavaScript `String.prototype.includes`. -/
def clContains : List Char → List Char → Bool
  | [], pat => pat.isEmpty
  | c :: r, pat => clStartsWith (c :: r) pat || clContains r pat

/-- JavaScript `s.includes(pat)`. -/
def containsSub (s pat : String) : Bool := clContains s.toList pat.toList

/-- JavaScript `s.startsWith(pat)`. -/
def startsWithStr (s pat : String) : Bool := clStartsWith s.toList pat.toList

/-- JavaScript `line.startsWith(' ')`. -/
def startsWithSpace (l : String) : Bool :=
  match l.toList with
  | ' ' :: _ => true
  | _ => false

/-- JavaScript test `line.match(/^[A-Z]/)` converted to a boolean. -/
def startsUpperAZ (l : String) : Bool :=
  match l.toList with
  | [] => false
  | c :: _ => decide ('A' ≤ c) && decide (c ≤ 'Z')

/-- JavaScript `String.prototype.trim` (both ends, `\s` class). -/
def trimJs (s : String) : String :=
  String.mk (((s.toList.dropWhile isJsSpace).reverse.dropWhile isJsSpace).reverse)

/-- Split a character list at newline characters, as in `s.split('\n')`. -/
def splitLinesGo : List Char → List Char → List String
  | [], cur => [String.mk cur.reverse]
  | '\n' :: r, cur => String.mk cur.reverse :: splitLinesGo r []
  | c :: r, cur => splitLinesGo r (c :: cur)

/-- Body of the colour escape `\x1b[[0-9;]*m`: consume digits and
semicolons up to the final `m`, or fail. -/
def ansiBodyM : List Char → Option (List Char)
  | [] => none
  | 'm' :: r => some r
  | c :: r => if c.isDigit || c = ';' then ansiBodyM r else none

/-- Body of the cursor escape `\x1b[[0-9]*C`. -/
def ansiBodyC : List Char → Option (List Char)
  | [] => none
  | 'C' :: r => some r
  | c :: r => if c.isDigit then ansiBodyC r else none

/-- One pass of `helpText.replace(/\x1b\[[0-9;]*m/g, '')`.  On a failed
match the escape and bracket are kept and scanning resumes after them; a
match can only ever start at an escape character, so this agrees with the
regex engine restarting at the next position.  The fuel is the input
length (every step consumes at least one character). -/
def stripEscM : Nat → List Char → List Char
  | 0, l => l
  | _ + 1, [] => []
  | fuel + 1, '\x1b' :: '[' :: r =>
    (match ansiBodyM r with
     | some r2 => stripEscM fuel r2
     | none => '\x1b' :: '[' :: stripEscM fuel r)
  | fuel + 1, c :: r => c :: stripEscM fuel r

/-- One pass of `.replace(/\x1b\[[0-9]*C/g, '')`, as `stripEscM`. -/
def stripEscC : Nat → List Char → List Char
  | 0, l => l
  | _ + 1, [] => []
  | fuel + 1, '\x1b' :: '[' :: r =>
    (match ansiBodyC r with
     | some r2 => stripEscC fuel r2
     | none => '\x1b' :: '[' :: stripEscC fuel r)
  | fuel + 1, c :: r => c :: stripEscC fuel r

/-- Shared preamble of both parsers: strip the two ANSI escape forms, split
into lines, trim each line and keep the non-empty ones.
Source: `app.js` lines 805-807 and 950-952 (identically in `part_011`). -/
def toLines (helpText : String) : List String :=
  let cs := helpText.toList
  let clean := stripEscC cs.length (stripEscM cs.length cs)
  ((splitLinesGo clean []).map trimJs).filter (fun l => l ≠ "")

/-- Match `/^(\w[\w_-]*)\s+:\s*(.*)$/` (or without the dash when
`allowDash = false`, giving `/^(\w[\w_]*)\s+:\s*(.*)$/`).  Returns the
name group and the text after the colon with its leading whitespace
removed.  A line matches the two-group regex exactly when it matches the
prefix form `/^(\w[\w_]*)\s+:/` used by the look-ahead breaks, since
`\s*(.*)$` always succeeds. -/
def matchNameColon (allowDash : Bool) (l : String) : Option (String × String) :=
  match l.toList with
  | [] => none
  | c :: rest =>
    if isWordChar c then
      let run := rest.takeWhile (isWordDash allowDash)
      let after := rest.dropWhile (isWordDash allowDash)
      match after with
      | [] => none
      | a :: after1 =>
        if isJsSpace a then
          match (a :: after1).dropWhile isJsSpace with
          | ':' :: tail => some (String.mk (c :: run), String.mk (tail.dropWhile isJsSpace))
          | _ => none
        else none
    else none

/-- Split for the colon-less dialect `/^(\w[\w_-]+)\s{2,}/`: a word-dash
name of at least two characters followed by two or more whitespace
characters.  Returns the name and the text after the whitespace run.  The
full command form `/^(\w[\w_-]+)\s{2,}(.+)$/` additionally needs that text
to be non-empty; for the trimmed lines the parsers produce (which never
end in whitespace) this is exactly the regex semantics. -/
def twoSpaceSplit (l : String) : Option (String × String) :=
  match l.toList with
  | [] => none
  | c :: rest =>
    if isWordChar c then
      let run := rest.takeWhile (isWordDash true)
      let after := rest.dropWhile (isWordDash true)
      if run.isEmpty then none
      else
        let sp := after.takeWhile isJsSpace
        let tail := after.dropWhile isJsSpace
        if 2 ≤ sp.length then some (String.mk (c :: run), String.mk tail) else none
    else none

/-- ArgumentSpec record pushed by `parseArguments`
(`app.js` lines 789-795). -/
structure ArgSpec where
  id : String
  name : String
  required : Bool
  «type» : String
  description : String
deriving Repr, DecidableEq

/-- CommandNode record.  Top-level commands are pushed by
`parseHelpOutput` with `fullName`, `parent` undefined and `hasSubcommands`,
`subcommands` null; subcommands are pushed by `parseSubcommands` with
`hasSubcommands`, `subcommands` undefined.  Both null and undefined are
modelled as `none`. -/
inductive Cmd : Type where
  | mk : (id : String) → (name : String) → (fullName : Option String) →
      (description : String) → (parent : Option String) → (usage : String) →
      (helpText : String) → (args : List ArgSpec) →
      (hasSubcommands : Option Bool) → (subcommands : Option (List Cmd)) → Cmd
deriving Repr

/-- Field `id` of a command node. -/
def Cmd.id : Cmd → String
  | .mk i _ _ _ _ _ _ _ _ _ => i

/-- Field `name` of a command node. -/
def Cmd.name : Cmd → String
  | .mk _ n _ _ _ _ _ _ _ _ => n

/-- Field `fullName` of a command node. -/
def Cmd.fullName : Cmd → Option String
  | .mk _ _ f _ _ _ _ _ _ _ => f

/-- Field `description` of a command node. -/
def Cmd.description : Cmd → String
  | .mk _ _ _ d _ _ _ _ _ _ => d

/-- Field `parent` of a command node. -/
def Cmd.parent : Cmd → Option String
  | .mk _ _ _ _ p _ _ _ _ _ => p

/-- Field `usage` of a command node. -/
def Cmd.usage : Cmd → String
  | .mk _ _ _ _ _ u _ _ _ _ => u

/-- Field `helpText` of a command node. -/
def Cmd.helpText : Cmd → String
  | .mk _ _ _ _ _ _ h _ _ _ => h

/-- Field `args` of a command node. -/
def Cmd.args : Cmd → List ArgSpec
  | .mk _ _ _ _ _ _ _ a _ _ => a

/-- Field `hasSubcommands` of a command node (`none` is null/undefined). -/
def Cmd.hasSubcommands : Cmd → Option Bool
  | .mk _ _ _ _ _ _ _ _ h _ => h

/-- Field `subcommands` of a command node (`none` is null/undefined). -/
def Cmd.subcommands : Cmd → Option (List Cmd)
  | .mk _ _ _ _ _ _ _ _ _ s => s

/-- Assignment `command.name = v`. -/
def Cmd.withName : Cmd → String → Cmd
  | .mk i _ f d p u h a hs s, v => .mk i v f d p u h a hs s

/-- Assignment `command.hasSubcommands = v`. -/
def Cmd.withHasSubcommands : Cmd → Option Bool → Cmd
  | .mk i n f d p u h a _ s, v => .mk i n f d p u h a v s

/-- Assignment `command.subcommands = v`. -/
def Cmd.withSubcommands : Cmd → Option (List Cmd) → Cmd
  | .mk i n f d p u h a hs _, v => .mk i n f d p u h a hs v

instance : Inhabited Cmd := ⟨.mk "" "" none "" none "" "" [] none none⟩

/-- Subcommand list of a node with null treated as the empty list. -/
def Cmd.subList (c : Cmd) : List Cmd := c.subcommands.getD []

/-- One attempt of the argument regex `(<[\w_]+>|\[<[\w_]+>\])` at the
current position, alternatives in source order
(`app.js` line 773). -/
def argToken (cs : List Char) : Option (List Char × List Char) :=
  match cs with
  | '<' :: rest =>
    let run := rest.takeWhile isWordChar
    (match rest.dropWhile isWordChar with
     | '>' :: tl => if run.isEmpty then none else some ('<' :: (run ++ ['>']), tl)
     | _ => none)
  | '[' :: '<' :: rest =>
    let run := rest.takeWhile isWordChar
    (match rest.dropWhile isWordChar with
     | '>' :: ']' :: tl =>
       if run.isEmpty then none else some ('[' :: '<' :: (run ++ ['>', ']']), tl)
     | _ => none)
  | _ => none

/-- Global scan of `helpText.match(argPattern)`: at each position try the
alternatives, on success continue after the match, otherwise advance one
character.  Fuel is the input length. -/
def argScan (tok : List Char → Option (List Char × List Char)) :
    Nat → List Char → List (List Char)
  | 0, _ => []
  | _ + 1, [] => []
  | fuel + 1, c :: r =>
    match tok (c :: r) with
    | some (t, rest) => t :: argScan tok fuel rest
    | none => argScan tok fuel r

/-- JavaScript `match.replace(/[<>\[\]]/g, '')`. -/
def cleanArgName (t : List Char) : String :=
  String.mk (t.filter (fun c => !(c = '<' || c = '>' || c = '[' || c = ']')))

/-- Fold of `app.js` lines 777-796: walk the raw matches, skip a match
whose cleaned text was already seen, otherwise push an ArgumentSpec whose
required flag records whether the raw match started with an angle
bracket. -/
def dedupArgSpecs : List (List Char) → List String → List ArgSpec
  | [], _ => []
  | t :: ts, seen =>
    let clean := cleanArgName t
    if seen.contains clean then dedupArgSpecs ts seen
    else
      { id := clean, name := clean, required := t.head? == some '<',
        «type» := "string", description := "" } :: dedupArgSpecs ts (clean :: seen)

/-- Function `parseArguments` of `app.js` (lines 768-800). -/
def parseArguments (helpText : String) : List ArgSpec :=
  dedupArgSpecs (argScan argToken helpText.toList.length helpText.toList) []

/-- Look-ahead loop of `parseHelpOutput` (`app.js` lines 982-998): consume
continuation lines into the description, stopping at a line that matches
the command prefix regex or contains a colon.  Returns the grown
description together with the lines that remain for the outer loop. -/
def phoCont : Nat → List String → String → String × List String
  | 0, rem, desc => (desc, rem)
  | _ + 1, [], desc => (desc, [])
  | fuel + 1, next :: rest, desc =>
    if (matchNameColon false next).isSome then (desc, next :: rest)
    else if containsSub next ":" then (desc, next :: rest)
    else phoCont fuel rest (desc ++ " " ++ next)

/-- Main loop of `parseHelpOutput` (`app.js` lines 959-1020).  The section
flag turns on at a line containing the literal marker; inside the section
every line matching the name-colon dialect starts a command node. -/
def phoGo : Nat → List String → Bool → List Cmd → List Cmd
  | 0, _, _, acc => acc
  | _ + 1, [], _, acc => acc
  | fuel + 1, line :: rest, inSec, acc =>
    if containsSub line "Available commands:" then phoGo fuel rest true acc
    else if inSec then
      match matchNameColon false line with
      | some (name, desc0) =>
        let c := phoCont (rest.length + 1) rest (trimJs desc0)
        let args := parseArguments c.1
        phoGo fuel c.2 true
          (acc ++ [Cmd.mk name name none c.1 none "" c.1 args none none])
      | none => phoGo fuel rest true acc
    else phoGo fuel rest false acc

/-- Function `parseHelpOutput` of `app.js` (lines 948-1027): parse the
top-level `help` response into the flat command list. -/
def parseHelpOutput (helpText : String) : List Cmd :=
  let lines := toLines helpText
  phoGo (lines.length + 1) lines false []

/-- Section marker test of `parseSubcommands`
(`app.js` lines 841-844). -/
def subSectionMarker (l : String) : Bool :=
  containsSub l.toLower "subcommand" || containsSub l "Available commands:" ||
    containsSub l.toLower "options:" || containsSub l.toLower "usage:"

/-- Command-line match of `parseSubcommands` (`app.js` lines 853-858):
first the name-colon dialect with dashes allowed, then the two-space
dialect. -/
def subLineMatch (l : String) : Option (String × String) :=
  match matchNameColon true l with
  | some r => some r
  | none =>
    match twoSpaceSplit l with
    | some (n, rest) => if rest ≠ "" then some (n, rest) else none
    | none => none

/-- Look-ahead loop of `parseSubcommands` (`app.js` lines 871-902), with
its break conditions in source order.  The usage branch keeps the raw line
(the branch is unreachable on trimmed lines, every usage line containing a
colon, but is embedded for fidelity). -/
def psCont : Nat → List String → String → String → String × String × List String
  | 0, rem, desc, usage => (desc, usage, rem)
  | _ + 1, [], desc, usage => (desc, usage, [])
  | fuel + 1, next :: rest, desc, usage =>
    if (matchNameColon true next).isSome then (desc, usage, next :: rest)
    else if (twoSpaceSplit next).isSome then (desc, usage, next :: rest)
    else if containsSub next ":" && !startsWithSpace next then (desc, usage, next :: rest)
    else if containsSub next.toLower "usage:" then psCont fuel rest desc next
    else if startsWithSpace next || !startsUpperAZ next then
      psCont fuel rest (desc ++ " " ++ next) usage
    else (desc, usage, next :: rest)

/-- Main loop of `parseSubcommands` (`app.js` lines 836-922). -/
def psGo : Nat → String → List String → Bool → List Cmd → List Cmd
  | 0, _, _, _, acc => acc
  | _ + 1, _, [], _, acc => acc
  | fuel + 1, parent, line :: rest, inSec, acc =>
    if subSectionMarker line then psGo fuel parent rest true acc
    else if inSec then
      match subLineMatch line with
      | some (name, desc0) =>
        if name = parent then psGo fuel parent rest true acc
        else
          let c := psCont (rest.length + 1) rest (trimJs desc0) ""
          let fullText := c.1 ++ " " ++ c.2.1
          let args := parseArguments fullText
          psGo fuel parent c.2.2 true
            (acc ++ [Cmd.mk (parent ++ "_" ++ name) name (some (parent ++ " " ++ name))
              c.1 (some parent) c.2.1 fullText args none none])
      | none => psGo fuel parent rest true acc
    else psGo fuel parent rest false acc

/-- Function `parseSubcommands` of `app.js` (lines 803-931): the leaf
short-circuit for at most three lines with a dash-description of the
parent itself, otherwise the section scan. -/
def parseSubcommands (helpText parentCommand : String) : List Cmd :=
  let lines := toLines helpText
  if lines.length ≤ 3 &&
      lines.any (fun l =>
        containsSub l parentCommand && containsSub l "-" && !containsSub l "--") then
    []
  else psGo (lines.length + 1) parentCommand lines false []

/-- Case-insensitive prefix test over ASCII, for the `/.../i` regexes. -/
def clStartsWithCI : List Char → List Char → Bool
  | _, [] => true
  | [], _ :: _ => false
  | c :: r, p :: ps => c.toLower = p && clStartsWithCI r ps

/-- Effect of `nextLine.replace(/.*usage:\s*/i, '')`: the greedy dot-star
strips everything through the last case-insensitive occurrence of
`usage:` and the whitespace after it; with no occurrence the line is kept
unchanged. -/
def usageTailAfter : List Char → Option (List Char)
  | [] => none
  | c :: r =>
    match usageTailAfter r with
    | some x => some x
    | none =>
      if clStartsWithCI (c :: r) ['u', 's', 'a', 'g', 'e', ':'] then
        some (((c :: r).drop 6).dropWhile isJsSpace)
      else none

namespace Deep

/-- One attempt of the `part_011` argument regex
`(<[^>]+>|\[<[^\]>]+>\]|\[[^\]<>]+\])` (line 2140), alternatives in
source order. -/
def argToken (cs : List Char) : Option (List Char × List Char) :=
  match cs with
  | '<' :: rest =>
    let run := rest.takeWhile (fun c => c ≠ '>')
    (match rest.dropWhile (fun c => c ≠ '>') with
     | '>' :: tl => if run.isEmpty then none else some ('<' :: (run ++ ['>']), tl)
     | _ => none)
  | '[' :: '<' :: rest =>
    let run := rest.takeWhile (fun c => !(c = ']' || c = '>'))
    (match rest.dropWhile (fun c => !(c = ']' || c = '>')) with
     | '>' :: ']' :: tl =>
       if run.isEmpty then none else some ('[' :: '<' :: (run ++ ['>', ']']), tl)
     | _ => none)
  | '[' :: rest =>
    let run := rest.takeWhile (fun c => !(c = ']' || c = '<' || c = '>'))
    (match rest.dropWhile (fun c => !(c = ']' || c = '<' || c = '>')) with
     | ']' :: tl => if run.isEmpty then none else some ('[' :: (run ++ [']']), tl)
     | _ => none)
  | _ => none

/-- Function `parseArguments` of `part_011` (lines 2134-2169); same
dedup-and-push fold as the flat engine, wider token pattern. -/
def parseArguments (helpText : String) : List ArgSpec :=
  dedupArgSpecs (argScan Deep.argToken helpText.toList.length helpText.toList) []

/-- Section marker of `part_011 parseSubcommands` (lines 2210-2211): only
a line that is, or starts with, `subcommands:` after lowering. -/
def subSectionMarker (l : String) : Bool :=
  l.toLower == "subcommands:" || startsWithStr l.toLower "subcommands:"

/-- Look-ahead loop of `part_011 parseSubcommands` (lines 2249-2292).
Branches in source order: the two command-shape breaks, the usage-marker
branch (consume), the indented-usage branch (consume), the colon break,
the continuation branch (consume), the non-usage break.  A line reached
in the usage block that matches none of these is scanned but NOT consumed
(the source advances `j` without updating `i`): it is buffered in
`pending` and handed back to the outer loop unless a later line is
consumed. -/
def psCont : Nat → List String → String → List String → Bool → List String →
    String × List String × List String
  | 0, rem, desc, usageAcc, _, pending => (desc, usageAcc, pending ++ rem)
  | _ + 1, [], desc, usageAcc, _, pending => (desc, usageAcc, pending)
  | fuel + 1, next :: rest, desc, usageAcc, inUsage, pending =>
    if (matchNameColon true next).isSome then (desc, usageAcc, pending ++ next :: rest)
    else if (twoSpaceSplit next).isSome then (desc, usageAcc, pending ++ next :: rest)
    else if containsSub next.toLower "usage:" then
      let ut := trimJs (String.mk ((usageTailAfter next.toList).getD next.toList))
      psCont fuel rest desc (usageAcc ++ if ut ≠ "" then [ut] else []) true []
    else if inUsage && startsWithSpace next then
      psCont fuel rest desc (usageAcc ++ [trimJs next]) true []
    else if containsSub next ":" && !startsWithSpace next then
      (desc, usageAcc, pending ++ next :: rest)
    else if !inUsage && (startsWithSpace next || !startsUpperAZ next) then
      psCont fuel rest (desc ++ " " ++ next) usageAcc false []
    else if !inUsage then (desc, usageAcc, pending ++ next :: rest)
    else psCont fuel rest desc usageAcc true (pending ++ [next])

/-- Main loop of `part_011 parseSubcommands` (lines 2205-2317), including
the dead guard that skips a matched name starting with an angle or square
bracket (lines 2232-2235; the name group always starts with a word
character).  Note the node template puts a trailing space inside both the
id and the fullName (source lines 2304 and 2306). -/
def psGo : Nat → String → List String → Bool → List Cmd → List Cmd
  | 0, _, _, _, acc => acc
  | _ + 1, _, [], _, acc => acc
  | fuel + 1, parent, line :: rest, inSec, acc =>
    if Deep.subSectionMarker line then Deep.psGo fuel parent rest true acc
    else if inSec then
      match subLineMatch line with
      | some (name, desc0) =>
        if startsWithStr name "<" || startsWithStr name "[" then
          Deep.psGo fuel parent rest true acc
        else if name = parent then Deep.psGo fuel parent rest true acc
        else
          let c := Deep.psCont (rest.length + 1) rest (trimJs desc0) [] false []
          let usage := String.intercalate " " c.2.1
          let fullText := c.1 ++ " " ++ usage
          let args := Deep.parseArguments fullText
          Deep.psGo fuel parent c.2.2 true
            (acc ++ [Cmd.mk (parent ++ "_" ++ name ++ " ") name
              (some (parent ++ " " ++ name ++ " ")) c.1 (some parent) usage
              fullText args none none])
      | none => Deep.psGo fuel parent rest true acc
    else Deep.psGo fuel parent rest false acc

/-- Function `parseSubcommands` of `part_011` (lines 2172-2326): the same
leaf short-circuit as the flat engine, then the section scan with the
stricter marker. -/
def parseSubcommands (helpText parentCommand : String) : List Cmd :=
  let lines := toLines helpText
  if lines.length ≤ 3 &&
      lines.any (fun l =>
        containsSub l parentCommand && containsSub l "-" && !containsSub l "--") then
    []
  else Deep.psGo (lines.length + 1) parentCommand lines false []

/-- Look-ahead loop of `part_011 parseHelpOutput` (lines 2381-2422).
Branches in source order: command break, usage-marker branch, indented
usage, break on a non-indented line inside the usage block, colon break,
unconditional continuation.  Returns the full description, the collected
usage lines and the remaining outer lines. -/
def phoCont : Nat → List String → String → List String → Bool →
    String × List String × List String
  | 0, rem, desc, usageAcc, _ => (desc, usageAcc, rem)
  | _ + 1, [], desc, usageAcc, _ => (desc, usageAcc, [])
  | fuel + 1, next :: rest, desc, usageAcc, inUsage =>
    if (matchNameColon false next).isSome then (desc, usageAcc, next :: rest)
    else if containsSub next.toLower "usage:" then
      let ut := trimJs (String.mk ((usageTailAfter next.toList).getD next.toList))
      Deep.phoCont fuel rest (desc ++ " " ++ next)
        (usageAcc ++ if ut ≠ "" then [ut] else []) true
    else if inUsage && startsWithSpace next then
      Deep.phoCont fuel rest (desc ++ " " ++ next) (usageAcc ++ [trimJs next]) true
    else if inUsage && !startsWithSpace next then (desc, usageAcc, next :: rest)
    else if containsSub next ":" && !startsWithSpace next then (desc, usageAcc, next :: rest)
    else Deep.phoCont fuel rest (desc ++ " " ++ next) usageAcc inUsage

/-- Usage string synthesised when no usage lines were collected
(`part_011` lines 2431-2438): the command name followed by each argument
rendered as required or optional (note the source template spacing). -/
def genUsage (cmdName : String) (args : List ArgSpec) : String :=
  if args.length > 0 then
    cmdName ++ " " ++ String.intercalate " "
      (args.map (fun a => if a.required then "< " ++ a.name ++ "> " else "[<" ++ a.name ++ ">]"))
  else cmdName

/-- Main loop of `part_011 parseHelpOutput` (lines 2354-2458). -/
def phoGo : Nat → List String → Bool → List Cmd → List Cmd
  | 0, _, _, acc => acc
  | _ + 1, [], _, acc => acc
  | fuel + 1, line :: rest, inSec, acc =>
    if containsSub line "Available commands:" then Deep.phoGo fuel rest true acc
    else if inSec then
      match matchNameColon false line with
      | some (name, desc0) =>
        let cmdDesc := trimJs desc0
        let c := Deep.phoCont (rest.length + 1) rest cmdDesc [] false
        let args := Deep.parseArguments c.1
        let usage :=
          if c.2.1 ≠ [] then String.intercalate " " c.2.1 else Deep.genUsage name args
        Deep.phoGo fuel c.2.2 true
          (acc ++ [Cmd.mk name name none cmdDesc none usage c.1 args none none])
      | none => Deep.phoGo fuel rest true acc
    else Deep.phoGo fuel rest false acc

/-- Function `parseHelpOutput` of `part_011` (lines 2343-2465). -/
def parseHelpOutput (helpText : String) : List Cmd :=
  let lines := toLines helpText
  Deep.phoGo (lines.length + 1) lines false []

end Deep

/-- Persisted catalog record `zephyr_commands_cache` as produced by
`saveCachedCommands` and consumed by `loadCachedCommands`.  Fields absent
from (or null in) the parsed JSON are `none`. -/
structure CommandsCache where
  version : Option String
  lastScanned : Option String
  commands : Option (List Cmd)
deriving Repr

/-- Truthiness of `this.commandsCache.version` in the JavaScript test
`!this.commandsCache.version`: an absent field or an empty string is
falsy, any other string is truthy. -/
def versionTruthy : Option String → Bool
  | none => false
  | some v => v ≠ ""

/-- Version tag written by `saveCachedCommands` (`app.js` line 378,
`part_011` line 1668): the current cache version. -/
def currentCacheVersion : String := "2.0"

/-- Discovery-relevant component state of the application object.  It
bundles the fields of both engine variants (the flat engine never touches
the cancel/pause fields).  `storage` is the parsed content of the
`zephyr_commands_cache` localStorage slot (`none` when the slot is empty,
`Except.error` when its text is not valid JSON); `sent` is the trace of
lines written to the WebSocket; `probeCount` numbers the subcommand
probes; `tick` counts the asynchronous boundaries at which environment
events (user clicks) are observed. -/
structure St where
  connected : Bool
  wsOpen : Bool
  showCommands : Bool
  commands : List Cmd
  loadingCommands : Bool
  commandsCache : Option CommandsCache
  lastScannedTime : Option String
  commandDiscoveryInProgress : Bool
  discoveryLock : Bool
  discoveryCollectedData : String
  progressCurrent : Nat
  progressTotal : Nat
  discoveringSubcommands : List (String × Bool)
  statusMessage : String
  statusMessageType : String
  showDiscoveryConfirm : Bool
  discoveryPaused : Bool
  discoveryCancelRequested : Bool
  storage : Option (Except Unit CommandsCache)
  sent : List String
  probeCount : Nat
  tick : Nat
deriving Repr

/-- Environment supplying every asynchronous input: `topBuf k` is the
collected buffer at the k-th poll of the top-level wait, `subBufs p k`
the buffer at the k-th poll while subcommand probe number `p` is
outstanding, `nowISO` the timestamp rendered by `new Date().toISOString()`,
`cancelAt t` whether the user has clicked cancel by async boundary `t`,
`past60 t` whether more than 60 seconds of wall clock have elapsed at `t`,
and `pauseDecision t` the choice made in the confirmation dialog
(`true` = continue, `false` = cancel). -/
structure Env where
  topBuf : Nat → String
  subBufs : Nat → Nat → String
  nowISO : String
  cancelAt : Nat → Bool
  past60 : Nat → Bool
  pauseDecision : Nat → Bool

/-- Function `showStatus` (`app.js` lines 328-336); the five-second
clearing timer is outside the model. -/
def showStatus (message ty : String) (st : St) : St :=
  { st with statusMessage := message, statusMessageType := ty }

/-- Property write on the `discoveringSubcommands` object, modelled as an
association list update. -/
def assocSet : List (String × Bool) → String → Bool → List (String × Bool)
  | [], k, v => [(k, v)]
  | (k0, v0) :: r, k, v =>
    if k0 = k then (k0, v) :: r else (k0, v0) :: assocSet r k v

/-- Assignment `this.discoveringSubcommands[id] = b`. -/
def setDiscovering (id : String) (b : Bool) (st : St) : St :=
  { st with discoveringSubcommands := assocSet st.discoveringSubcommands id b }

/-- Function `loadCachedCommands` (`app.js` lines 341-371, identical in
`part_011` lines 1631-1661).  A missing slot or a JSON parse error yields
`false` with the state untouched (the failed `JSON.parse` throws before
the `commandsCache` assignment); a parsed record is stored in
`commandsCache` and then validated: a falsy `version` or missing
`commands` field yields `false` without touching the command list.  Note
the validation never compares the version value against
`currentCacheVersion`. -/
def loadCachedCommands (st : St) : Bool × St :=
  match st.storage with
  | none => (false, st)
  | some (.error _) => (false, st)
  | some (.ok v) =>
    let st1 := { st with commandsCache := some v }
    match v.commands, versionTruthy v.version with
    | some cs, true =>
      (true, { st1 with commands := cs, lastScannedTime := v.lastScanned })
    | _, _ => (false, st1)

/-- Function `saveCachedCommands` (`app.js` lines 374-386, identical in
`part_011` lines 1664-1676): persist the list under the current version
with a fresh timestamp and mirror it into the in-memory fields. -/
def saveCachedCommands (env : Env) (commands : List Cmd) (st : St) : St :=
  let cache : CommandsCache :=
    { version := some currentCacheVersion, lastScanned := some env.nowISO,
      commands := some commands }
  { st with
      storage := some (.ok cache),
      commandsCache := some cache,
      commands := commands,
      lastScannedTime := some env.nowISO }

/-- Function `sendDiscoveryCommand` (`app.js` lines 580-584): write the
probe line to the WebSocket when it is open. -/
def sendDiscoveryCommand (command : String) (st : St) : St :=
  if st.wsOpen then { st with sent := st.sent ++ [command] } else st

/-- Outcome of the top-level wait: the settled promise and the buffer
content at the poll that settled it. -/
structure WaitOutcome where
  result : Except String (List Cmd)
  buffer : String

/-- Outcome of a subcommand wait. -/
structure SubWaitOutcome where
  result : Except String Unit
  buffer : String

/-- Polling loop of `waitForDiscoveryCompletion` (`app.js` lines 587-658).
Poll `k` sees buffer `buf k` and elapsed time `500 * k` (the first check
runs immediately, later ones on a 500 ms timer).  In source order: the
section-marker resolve, the stability counter (four unchanged polls)
resolving on a parseable buffer and rejecting otherwise, and the hard
timeout rejection.  The fuel-zero arm returns the hard-timeout outcome;
it is unreachable from the calibrated entry point since the loop reaches
poll `k` only while `500 * (k-1) ≤ timeout`. -/
def wfdcGo (buf : Nat → String) (timeout : Nat) :
    Nat → Nat → Nat → Nat → WaitOutcome
  | 0, k, _, _ =>
    { result := .error "Command discovery timeout - no valid help output received",
      buffer := buf k }
  | fuel + 1, k, lastLen, cnt =>
    let data := buf k
    if containsSub data "Available commands:" && (parseHelpOutput data).length > 0 then
      { result := .ok (parseHelpOutput data), buffer := data }
    else if data.length = lastLen then
      if cnt + 1 ≥ 4 then
        if (parseHelpOutput data).length > 0 then
          { result := .ok (parseHelpOutput data), buffer := data }
        else { result := .error "No commands found in help output", buffer := data }
      else if 500 * k > timeout then
        { result := .error "Command discovery timeout - no valid help output received",
          buffer := data }
      else wfdcGo buf timeout fuel (k + 1) lastLen (cnt + 1)
    else if 500 * k > timeout then
      { result := .error "Command discovery timeout - no valid help output received",
        buffer := data }
    else wfdcGo buf timeout fuel (k + 1) data.length 0

/-- Function `waitForDiscoveryCompletion` of `app.js`. -/
def waitForDiscoveryCompletion (buf : Nat → String) (timeout : Nat) : WaitOutcome :=
  wfdcGo buf timeout (timeout / 500 + 2) 0 0 0

/-- Polling loop of `waitForSubcommandDiscovery` (`app.js` lines 661-706):
stability of two unchanged polls resolves, the hard timeout also
resolves - the promise rejection is never invoked in the source.  Poll
cadence 500 ms as above. -/
def wfsdGo (buf : Nat → String) (timeout : Nat) :
    Nat → Nat → Nat → Nat → SubWaitOutcome
  | 0, k, _, _ => { result := .ok (), buffer := buf k }
  | fuel + 1, k, lastLen, cnt =>
    let data := buf k
    if data.length = lastLen then
      if cnt + 1 ≥ 2 then { result := .ok (), buffer := data }
      else if 500 * k > timeout then { result := .ok (), buffer := data }
      else wfsdGo buf timeout fuel (k + 1) lastLen (cnt + 1)
    else if 500 * k > timeout then { result := .ok (), buffer := data }
    else wfsdGo buf timeout fuel (k + 1) data.length 0

/-- Function `waitForSubcommandDiscovery` of `app.js`. -/
def waitForSubcommandDiscovery (buf : Nat → String) (timeout : Nat) : SubWaitOutcome :=
  wfsdGo buf timeout (timeout / 500 + 2) 0 0 0

/-- Maximum wait passed to the top-level `waitForDiscoveryCompletion`
call (`app.js` line 425, `part_011` line 1719). -/
def topLevelProbeTimeoutMs : Nat := 300

/-- Maximum wait passed to `waitForSubcommandDiscovery` by the flat
engine (`app.js` lines 503 and 732). -/
def subcommandProbeTimeoutMs : Nat := 2000

/-- Function `discoverSubcommandsInternal` of `app.js` (lines 492-534).
The `command` argument is identified by its index in `this.commands`, so
that the JavaScript mutations through the object reference are reflected
at that position; the explicit `findIndex`-by-id write-back of the source
is applied as well.  On an empty parse the node is only marked
`hasSubcommands = false` (no cache save). -/
def discoverSubcommandsInternal (env : Env) (idx : Nat) (st : St) : St :=
  let st := { st with commandDiscoveryInProgress := true, discoveryCollectedData := "" }
  let command := st.commands.getD idx default
  let st := sendDiscoveryCommand (command.name ++ " --help\n") st
  let w := waitForSubcommandDiscovery (env.subBufs st.probeCount) subcommandProbeTimeoutMs
  let st := { st with probeCount := st.probeCount + 1, discoveryCollectedData := w.buffer }
  match w.result with
  | .error _ => { st with commandDiscoveryInProgress := false }
  | .ok _ =>
    let subcommands := parseSubcommands st.discoveryCollectedData command.name
    if subcommands.length > 0 then
      let command2 := (command.withSubcommands (some subcommands)).withHasSubcommands (some true)
      let cmds := st.commands.set idx command2
      let cmds :=
        match cmds.findIdx? (fun c => c.id == command2.id) with
        | some j => cmds.set j command2
        | none => cmds
      let st := saveCachedCommands env cmds { st with commands := cmds }
      { st with commandDiscoveryInProgress := false }
    else
      let command2 := command.withHasSubcommands (some false)
      { st with
          commands := st.commands.set idx command2,
          commandDiscoveryInProgress := false }

/-- Skip test of the walk (`app.js` lines 457-467): a populated
`subcommands` array or an explicit `hasSubcommands === false`. -/
def skipCond (cmd : Cmd) : Bool :=
  (match cmd.subcommands with
   | some l => l.length > 0
   | none => false) || cmd.hasSubcommands == some false

/-- Loop body of `discoverAllSubcommands` (`app.js` lines 454-486) for
index `i`: skip (progress only) or probe-and-attach, bracketed by the
`discoveringSubcommands` marks, with the progress counter bumped in the
`finally`. -/
def discoverAllStep (env : Env) (i : Nat) (st : St) : St :=
  let cmd := st.commands.getD i default
  if skipCond cmd then { st with progressCurrent := st.progressCurrent + 1 }
  else
    let st := setDiscovering cmd.id true st
    let st := discoverSubcommandsInternal env i st
    let st := setDiscovering cmd.id false st
    { st with progressCurrent := st.progressCurrent + 1 }

/-- Iteration of the `discoverAllSubcommands` loop; the fuel is the
initial list length, which every step preserves (`List.set`). -/
def discoverAllGo (env : Env) : Nat → Nat → St → St
  | 0, _, st => st
  | fuel + 1, i, st =>
    if i < st.commands.length then discoverAllGo env fuel (i + 1) (discoverAllStep env i st)
    else st

/-- Function `discoverAllSubcommands` of `app.js` (lines 446-489). -/
def discoverAllSubcommands (env : Env) (st : St) : St :=
  if st.commands.length = 0 then st
  else
    let st := { st with progressTotal := st.commands.length, progressCurrent := 0 }
    discoverAllGo env st.commands.length 0 st

/-- Function `scanCommands` of `app.js` (lines 389-443): connection and
lock guards, cached fast path (with `loadCachedCommands` short-circuited
away under `force`), then the top-level probe, the walk, and the
`finally` release of the lock.  The locale rendering of the cache
timestamp in the status message is abstracted away. -/
def scanCommands (env : Env) (force : Bool) (st : St) : St :=
  if !st.connected then showStatus "Must be connected to scan commands" "error" st
  else if st.discoveryLock then
    showStatus "Command discovery already in progress. Please wait..." "error" st
  else
    let st := { st with discoveryLock := true, loadingCommands := true }
    let st := showStatus "Scanning commands..." "info" st
    let cacheHit := if force then (false, st) else loadCachedCommands st
    if cacheHit.1 then
      let st := showStatus "Loaded cached commands" "success" cacheHit.2
      { st with showCommands := true, loadingCommands := false, discoveryLock := false }
    else
      let st := cacheHit.2
      let st := { st with commandDiscoveryInProgress := true, discoveryCollectedData := "" }
      let st := sendDiscoveryCommand "help\n" st
      let w := waitForDiscoveryCompletion env.topBuf topLevelProbeTimeoutMs
      let st := { st with discoveryCollectedData := w.buffer }
      match w.result with
      | .ok parsed =>
        let st := saveCachedCommands env parsed { st with commands := parsed }
        let st := showStatus "Commands scanned successfully! Discovering subcommands..." "success" st
        let st := { st with showCommands := true }
        let st := discoverAllSubcommands env st
        let st := showStatus "All commands scanned!" "success" st
        { st with
            loadingCommands := false,
            commandDiscoveryInProgress := false,
            discoveryLock := false }
      | .error e =>
        let st := showStatus ("Error scanning commands: " ++ e) "error" st
        { st with
            loadingCommands := false,
            commandDiscoveryInProgress := false,
            discoveryLock := false }

/-- Function `discoverSubcommands` of `app.js` (lines 709-765): the
user-facing per-node discovery with its own connection and lock guards;
the probed node is identified by its index in `this.commands`. -/
def discoverSubcommands (env : Env) (idx : Nat) (st : St) : St :=
  if !st.connected then showStatus "Must be connected to discover subcommands" "error" st
  else if st.discoveryLock then
    showStatus "Discovery already in progress. Please wait..." "error" st
  else
    let st :=
      { st with
          discoveryLock := true,
          commandDiscoveryInProgress := true,
          discoveryCollectedData := "" }
    let command := st.commands.getD idx default
    let st := sendDiscoveryCommand (command.name ++ " --help\n") st
    let w := waitForSubcommandDiscovery (env.subBufs st.probeCount) subcommandProbeTimeoutMs
    let st := { st with probeCount := st.probeCount + 1, discoveryCollectedData := w.buffer }
    match w.result with
    | .error _ => { st with commandDiscoveryInProgress := false, discoveryLock := false }
    | .ok _ =>
      let subcommands := parseSubcommands st.discoveryCollectedData command.name
      if subcommands.length > 0 then
        let command2 := (command.withSubcommands (some subcommands)).withHasSubcommands (some true)
        let cmds := st.commands.set idx command2
        let cmds :=
          match cmds.findIdx? (fun c => c.id == command2.id) with
          | some j => cmds.set j command2
          | none => cmds
        let st := saveCachedCommands env cmds { st with commands := cmds }
        let st := showStatus ("Found subcommands for " ++ command.name) "success" st
        { st with commandDiscoveryInProgress := false, discoveryLock := false }
      else
        let command2 := command.withHasSubcommands (some false)
        let st := { st with commands := st.commands.set idx command2 }
        let st := showStatus ("No subcommands found for " ++ command.name) "info" st
        { st with commandDiscoveryInProgress := false, discoveryLock := false }

/-- JavaScript test `data.match(/[\$>] $/) || data.match(/\n.*[\$>] $/)`
converted to a boolean: both alternatives hold exactly when the buffer
ends in a dollar or angle prompt followed by one space. -/
def endsWithPrompt (s : String) : Bool :=
  match s.toList.reverse with
  | ' ' :: c :: _ => c = '$' || c = '>'
  | _ => false

namespace Deep

/-- Maximum wait passed to the top-level wait by the deep engine
(`part_011` line 1719). -/
def topLevelProbeTimeoutMs : Nat := 300

/-- Maximum wait passed to `waitForSubcommandDiscovery` by the deep
engine's internal discovery (`part_011` line 1851). -/
def subcommandProbeTimeoutMs : Nat := 1200

/-- Polling loop of `part_011 waitForDiscoveryCompletion`
(lines 1936-2021).  Polls run on a 50 ms timer, so poll `k` sees elapsed
time `50 * k`.  In source order: the marker resolve, the marker-plus-
prompt resolve (subsumed by the first, embedded for fidelity), the
three-poll stability resolve/reject, the hard timeout reject. -/
def wfdcGo (buf : Nat → String) (timeout : Nat) :
    Nat → Nat → Nat → Nat → WaitOutcome
  | 0, k, _, _ => { result := .error "Command discovery timeout", buffer := buf k }
  | fuel + 1, k, lastLen, cnt =>
    let data := buf k
    if containsSub data "Available commands:" && (Deep.parseHelpOutput data).length > 0 then
      { result := .ok (Deep.parseHelpOutput data), buffer := data }
    else if containsSub data "Available commands:" && endsWithPrompt data &&
        (Deep.parseHelpOutput data).length > 0 then
      { result := .ok (Deep.parseHelpOutput data), buffer := data }
    else if data.length = lastLen then
      if cnt + 1 ≥ 3 then
        if (Deep.parseHelpOutput data).length > 0 then
          { result := .ok (Deep.parseHelpOutput data), buffer := data }
        else { result := .error "No commands found in help output", buffer := data }
      else if 50 * k > timeout then
        { result := .error "Command discovery timeout", buffer := data }
      else Deep.wfdcGo buf timeout fuel (k + 1) lastLen (cnt + 1)
    else if 50 * k > timeout then
      { result := .error "Command discovery timeout", buffer := data }
    else Deep.wfdcGo buf timeout fuel (k + 1) data.length 0

/-- Function `waitForDiscoveryCompletion` of `part_011`. -/
def waitForDiscoveryCompletion (buf : Nat → String) (timeout : Nat) : WaitOutcome :=
  Deep.wfdcGo buf timeout (timeout / 50 + 2) 0 0 0

/-- Polling loop of `part_011 waitForSubcommandDiscovery`
(lines 2024-2072): the prompt fast path for buffers longer than five
characters, three-poll stability, and a resolving hard timeout; the
rejection is never invoked. -/
def wfsdGo (buf : Nat → String) (timeout : Nat) :
    Nat → Nat → Nat → Nat → SubWaitOutcome
  | 0, k, _, _ => { result := .ok (), buffer := buf k }
  | fuel + 1, k, lastLen, cnt =>
    let data := buf k
    if data.length > 5 && endsWithPrompt data then { result := .ok (), buffer := data }
    else if data.length = lastLen then
      if cnt + 1 ≥ 3 then { result := .ok (), buffer := data }
      else if 50 * k > timeout then { result := .ok (), buffer := data }
      else Deep.wfsdGo buf timeout fuel (k + 1) lastLen (cnt + 1)
    else if 50 * k > timeout then { result := .ok (), buffer := data }
    else Deep.wfsdGo buf timeout fuel (k + 1) data.length 0

/-- Function `waitForSubcommandDiscovery` of `part_011`. -/
def waitForSubcommandDiscovery (buf : Nat → String) (timeout : Nat) : SubWaitOutcome :=
  Deep.wfsdGo buf timeout (timeout / 50 + 2) 0 0 0

/-- Function `cancelDiscovery` of `part_011` (lines 1832-1836). -/
def cancelDiscovery (st : St) : St :=
  { st with
      discoveryCancelRequested := true,
      discoveryPaused := false,
      showDiscoveryConfirm := false }

/-- Function `continueDiscovery` of `part_011` (lines 1827-1830). -/
def continueDiscovery (st : St) : St :=
  { st with showDiscoveryConfirm := false, discoveryPaused := false }

/-- Asynchronous boundary: control returns to the event loop and the user
may have clicked cancel since the last boundary, in which case
`cancelDiscovery` runs.  The tick counter indexes the environment. -/
def envStep (env : Env) (st : St) : St :=
  let st := { st with tick := st.tick + 1 }
  if env.cancelAt st.tick then Deep.cancelDiscovery st else st

/-- Function `discoverSubcommandsInternal` of `part_011`
(lines 1839-1866): probe `fullName || name`, wait, parse, and return the
subcommand list (the caught-error path returns empty).  The ten
millisecond courtesy delay has no observable effect beyond an
asynchronous boundary and is absorbed into the caller's next one. -/
def discoverSubcommandsInternal (env : Env) (command : Cmd) (st : St) :
    List Cmd × St :=
  let st := { st with commandDiscoveryInProgress := true, discoveryCollectedData := "" }
  let cmdName := command.fullName.getD command.name
  let st := sendDiscoveryCommand (trimJs cmdName ++ " --help\n") st
  let w := Deep.waitForSubcommandDiscovery (env.subBufs st.probeCount)
    Deep.subcommandProbeTimeoutMs
  let st := { st with probeCount := st.probeCount + 1, discoveryCollectedData := w.buffer }
  match w.result with
  | .error _ => ([], { st with commandDiscoveryInProgress := false })
  | .ok _ =>
    let subcommands := Deep.parseSubcommands st.discoveryCollectedData (trimJs cmdName)
    (subcommands, { st with commandDiscoveryInProgress := false })

/-- Statement `if (!topLevelCmd.subcommands) topLevelCmd.subcommands = []`
(`part_011` line 1793), with the top-level ancestor named by its index. -/
def ensureSubList (topIdx : Nat) (st : St) : St :=
  let top := st.commands.getD topIdx default
  match top.subcommands with
  | none => { st with commands := st.commands.set topIdx (top.withSubcommands (some [])) }
  | some _ => st

/-- JavaScript `s.substring(n)` over code units. -/
def strDrop (s : String) (n : Nat) : String := String.mk (s.toList.drop n)

/-- Body of the attach loop of `discoverDeep` for one discovered `sub`
(`part_011` lines 1795-1811, without the final recursion): rewrite the
display name relative to the top-level ancestor and push onto the
ancestor's flattened subcommand list unless an entry with the same
`fullName` is already there.  The `sub.parentCmd = command` back link is
represented by passing the ancestor index through the recursion. -/
def attachOne (topIdx : Nat) (sub : Cmd) (st : St) : Cmd × St :=
  let topName := (st.commands.getD topIdx default).name
  let sub2 :=
    match sub.fullName with
    | some fn =>
      if startsWithStr fn (topName ++ " ") then
        sub.withName (trimJs (strDrop fn (topName.length + 1)))
      else sub
    | none => sub
  let top := st.commands.getD topIdx default
  if top.subList.any (fun s => s.fullName == sub2.fullName) then (sub2, st)
  else
    (sub2,
     { st with
         commands := st.commands.set topIdx (top.withSubcommands (some (top.subList ++ [sub2]))) })

mutual

/-- Try-block of `discoverDeep` (`part_011` lines 1778-1824): mark the
node as discovering, probe it, and on a non-empty parse run the attach
loop, set `hasSubcommands = true` on the top-level ancestor and save the
cache; finally clear the discovering mark. -/
def probeAndAttach (env : Env) : Nat → Nat → Cmd → St → St
  | 0, _, _, st => st
  | fuel + 1, topIdx, command, st =>
    let st := setDiscovering command.id true st
    let r := Deep.discoverSubcommandsInternal env command st
    let st := r.2
    let st :=
      if r.1.length > 0 then
        let st := Deep.ensureSubList topIdx st
        let st := Deep.attachSubs env fuel topIdx r.1 st
        let top := st.commands.getD topIdx default
        let st :=
          { st with commands := st.commands.set topIdx (top.withHasSubcommands (some true)) }
        saveCachedCommands env st.commands st
      else st
    setDiscovering command.id false st

/-- Function `discoverDeep` of `part_011` (lines 1762-1825): cancellation
check at entry, the sixty-second pause with the user's continue/cancel
decision, a second cancellation check, then the probe-and-attach block.
Wall-clock time is supplied by `env.past60`.  The fuel bounds the
recursion depth; a fuel-zero call returns the state unchanged (it stands
for a walk prefix being cut off, never reached in any finite execution
with ample fuel). -/
def discoverDeep (env : Env) : Nat → Nat → Cmd → St → St
  | 0, _, _, st => st
  | fuel + 1, topIdx, command, st =>
    let st := Deep.envStep env st
    if st.discoveryCancelRequested then st
    else
      let st :=
        if !st.showDiscoveryConfirm && env.past60 st.tick then
          let st := { st with showDiscoveryConfirm := true, discoveryPaused := true }
          if env.pauseDecision st.tick then Deep.continueDiscovery st
          else Deep.cancelDiscovery st
        else st
      if st.discoveryCancelRequested then st
      else Deep.probeAndAttach env fuel topIdx command st

/-- Attach loop of `discoverDeep` (`part_011` lines 1795-1815): for each
discovered subcommand, attach it to the flattened list and recurse into
it before moving to the next. -/
def attachSubs (env : Env) : Nat → Nat → List Cmd → St → St
  | 0, _, _, st => st
  | _ + 1, _, [], st => st
  | fuel + 1, topIdx, sub :: rest, st =>
    let a := Deep.attachOne topIdx sub st
    let st := Deep.discoverDeep env fuel topIdx a.1 a.2
    Deep.attachSubs env fuel topIdx rest st

end

/-- Iteration of the `part_011 discoverAllSubcommands` loop
(lines 1751-1756): break on a cancellation observed at the loop
boundary, otherwise walk the i-th top-level command. -/
def discoverAllGo (env : Env) (fuel : Nat) : Nat → Nat → St → St
  | 0, _, st => st
  | n + 1, i, st =>
    if i < st.commands.length then
      let st := Deep.envStep env st
      if st.discoveryCancelRequested then st
      else
        let cmd := st.commands.getD i default
        Deep.discoverAllGo env fuel n (i + 1) (Deep.discoverDeep env fuel i cmd st)
    else st

/-- Function `discoverAllSubcommands` of `part_011` (lines 1744-1759). -/
def discoverAllSubcommands (env : Env) (fuel : Nat) (st : St) : St :=
  if st.commands.length = 0 then st
  else Deep.discoverAllGo env fuel st.commands.length 0 st

/-- Function `scanCommands` of `part_011` (lines 1679-1741): the guards,
the cached fast path, the reset of the cancel/pause flags, the top-level
probe, the deep walk, the cancelled-or-done status, and the `finally`
release of the lock.  `discoveryStartTime` is represented only through
`env.past60`. -/
def scanCommands (env : Env) (fuel : Nat) (force : Bool) (st : St) : St :=
  if !st.connected then showStatus "Must be connected to scan commands" "error" st
  else if st.discoveryLock then
    showStatus "Command discovery already in progress. Please wait..." "error" st
  else
    let st := { st with discoveryLock := true, loadingCommands := true }
    let st := showStatus "Scanning commands..." "info" st
    let cacheHit := if force then (false, st) else loadCachedCommands st
    if cacheHit.1 then
      let st := showStatus "Loaded cached commands" "success" cacheHit.2
      { st with showCommands := true, loadingCommands := false, discoveryLock := false }
    else
      let st := cacheHit.2
      let st :=
        { st with
            commandDiscoveryInProgress := true,
            discoveryCollectedData := "",
            showDiscoveryConfirm := false,
            discoveryCancelRequested := false,
            discoveryPaused := false }
      let st := sendDiscoveryCommand "help\n" st
      let w := Deep.waitForDiscoveryCompletion env.topBuf Deep.topLevelProbeTimeoutMs
      let st := { st with discoveryCollectedData := w.buffer }
      match w.result with
      | .ok parsed =>
        let st := saveCachedCommands env parsed { st with commands := parsed }
        let st := showStatus "Commands scanned successfully! Discovering deep subcommands..."
          "success" st
        let st := { st with showCommands := true }
        let st := Deep.discoverAllSubcommands env fuel st
        let st :=
          if st.discoveryCancelRequested then
            showStatus "Command discovery cancelled by user." "info" st
          else showStatus "All commands and deep subcommands scanned!" "success" st
        { st with
            loadingCommands := false,
            commandDiscoveryInProgress := false,
            discoveryLock := false }
      | .error e =>
        let st := showStatus ("Error scanning commands: " ++ e) "error" st
        { st with
            loadingCommands := false,
            commandDiscoveryInProgress := false,
            discoveryLock := false }

end Deep

/-- Per-line command names offered to `parseHelpOutput`: the name group of
each line matching the name-colon dialect. -/
def lineNamesTop (lines : List String) : List String :=
  lines.filterMap (fun l => (matchNameColon false l).map Prod.fst)

/-- Per-line command names offered to `parseSubcommands`: the name group
of each line matching either subcommand dialect. -/
def lineNamesSub (lines : List String) : List String :=
  lines.filterMap (fun l => (subLineMatch l).map Prod.fst)

/-- Extension order on command nodes: identity and name are preserved and
the subcommand list has only grown at the end. -/
def cmdExt (c c' : Cmd) : Prop :=
  c'.id = c.id ∧ c'.name = c.name ∧ ∃ t, c.subList ++ t = c'.subList

/-- Extension order on catalogs: same length, pointwise `cmdExt`. -/
def catalogExt (l l' : List Cmd) : Prop := List.Forall₂ cmdExt l l'

/-- Persisted records that `loadCachedCommands` treats as no cache: an
empty slot, unparseable JSON, a falsy version tag or a missing commands
field. -/
def invalidRecord (s : Option (Except Unit CommandsCache)) : Prop :=
  s = none ∨ s = some (.error ()) ∨
    ∃ v, s = some (.ok v) ∧ (versionTruthy v.version = false ∨ v.commands = none)

/-- Idle application state used by the concrete witnesses: connected, the
WebSocket open, everything else at its initial value. -/
def baseSt : St :=
  { connected := true, wsOpen := true, showCommands := false, commands := [],
    loadingCommands := false, commandsCache := none, lastScannedTime := none,
    commandDiscoveryInProgress := false, discoveryLock := false,
    discoveryCollectedData := "", progressCurrent := 0, progressTotal := 0,
    discoveringSubcommands := [], statusMessage := "", statusMessageType := "",
    showDiscoveryConfirm := false, discoveryPaused := false,
    discoveryCancelRequested := false, storage := none, sent := [],
    probeCount := 0, tick := 0 }

/-- Quiet environment used by the concrete witnesses: every probe buffer
holds a one-line leaf response, nothing is cancelled, the clock never
passes the pause threshold. -/
def baseEnv : Env :=
  { topBuf := fun _ => "Available commands:\nlog : Logging commands",
    subBufs := fun _ _ => "bypass - Bypass shell",
    nowISO := "2024-01-01T00:00:00.000Z",
    cancelAt := fun _ => false, past60 := fun _ => false,
    pauseDecision := fun _ => true }

/-- Persisted record carrying the superseded version tag 1.0 together
with a well-formed command list. -/
def legacyCache : CommandsCache :=
  { version := some "1.0", lastScanned := some "2023-01-01T00:00:00.000Z",
    commands := some [] }

/-- State whose cache slot holds the legacy record. -/
def stLegacy : St := { baseSt with storage := some (.ok legacyCache) }

/-- Persisted record with no version tag at all. -/
def noVersionCache : CommandsCache :=
  { version := none, lastScanned := none, commands := some [] }

/-- State whose cache slot holds the record without a version tag. -/
def stNoVersion : St := { baseSt with storage := some (.ok noVersionCache) }

/-- Freshly parsed top-level node for the `bypass` command. -/
def bypassCmd : Cmd :=
  Cmd.mk "bypass" "bypass" none "Bypass shell" none "" "Bypass shell" [] none none

/-- State holding the single unprobed `bypass` node. -/
def stBypass : St := { baseSt with commands := [bypassCmd] }

/-- Node already determined to be a leaf. -/
def leafCmd : Cmd :=
  Cmd.mk "bypass" "bypass" none "Bypass shell" none "" "Bypass shell" [] (some false) none

/-- State holding only nodes the walk must skip. -/
def stLeaves : St := { baseSt with commands := [leafCmd] }

/-- State in which another scan currently holds the discovery lock. -/
def stLocked : St :=
  { baseSt with
      discoveryLock := true, commands := [bypassCmd], progressCurrent := 3,
      progressTotal := 7, sent := ["help\n"] }

/-- State of a deep walk whose user has already requested cancellation. -/
def stCancelled : St :=
  { baseSt with
      discoveryLock := true, commandDiscoveryInProgress := true,
      discoveryCancelRequested := true, commands := [bypassCmd] }

/-- State of a walk whose user has requested cancellation while the lock
is free (used to witness the cancellation facts). -/
def stCancelWalk : St :=
  { baseSt with discoveryCancelRequested := true, commands := [bypassCmd] }

/-- Claim C4, as stated, is false: parsing the help text consisting of
only the two command lines yields no nodes, because `parseHelpOutput`
requires the literal section marker `Available commands:` before it
enters the command section. -/
theorem c4_counterexample :
    parseHelpOutput "log : Logging commands\ndevice : Device commands" = [] := rfl

/-- C4 (amended): parsing the top-level help text consisting of the
section marker line followed by `log : Logging commands` and
`device : Device commands` yields nodes named `log` and `device`, in that
order, each with `hasSubcommands = none` (discovery state Unknown). -/
theorem c4_thm :
    parseHelpOutput "Available commands:\nlog : Logging commands\ndevice : Device commands" =
      [Cmd.mk "log" "log" none "Logging commands" none "" "Logging commands" [] none none,
       Cmd.mk "device" "device" none "Device commands" none "" "Device commands" [] none none] ∧
    (parseHelpOutput "Available commands:\nlog : Logging commands\ndevice : Device commands").map Cmd.name
      = ["log", "device"] ∧
    (parseHelpOutput "Available commands:\nlog : Logging commands\ndevice : Device commands").all
      (fun c => c.hasSubcommands == none) = true :=
  ⟨rfl, rfl, rfl⟩

/-- C9: the code gives each subcommand probe a LARGER maximum wait than
the initial top-level probe, contradicting the claim (and the call-site
comment): the top-level wait is invoked with 300 ms while the subcommand
waits are invoked with 2000 ms (flat engine) and 1200 ms (deep engine). -/
theorem c9_thm :
    topLevelProbeTimeoutMs < subcommandProbeTimeoutMs ∧
    Deep.topLevelProbeTimeoutMs < Deep.subcommandProbeTimeoutMs ∧
    ¬ subcommandProbeTimeoutMs < topLevelProbeTimeoutMs ∧
    ¬ Deep.subcommandProbeTimeoutMs < Deep.topLevelProbeTimeoutMs := by decide

/-- C7: the one-line probe response `bypass - Bypass shell` with no
subcommand-section marker parses to zero subcommands, and the internal
discovery step then classifies the probed node as a leaf by setting
`hasSubcommands = some false`. -/
theorem c7_thm :
    parseSubcommands "bypass - Bypass shell" "bypass" = [] ∧
    (discoverSubcommandsInternal baseEnv 0 stBypass).commands =
      [bypassCmd.withHasSubcommands (some false)] := ⟨rfl, rfl⟩

/-- Claim C1, as stated, is false: a persisted record whose version tag
is `1.0` - different from the current version `2.0` - is accepted by
`loadCachedCommands` (it returns true and installs the stored list),
because the validation only tests the version field for truthiness. -/
theorem c1_counterexample :
    legacyCache.version = some "1.0" ∧ ("1.0" : String) ≠ currentCacheVersion ∧
    (loadCachedCommands stLegacy).1 = true ∧
    (loadCachedCommands stLegacy).2.commands = [] :=
  ⟨rfl, by decide, rfl, rfl⟩

/-- C1 (amended): loading reports no cache exactly for an absent record,
unparseable JSON, a falsy version tag or a missing commands field; a
false result leaves the in-memory command list untouched, and a true
result installs exactly the stored list - never a partial tree.  The
version value itself is never compared against `currentCacheVersion`. -/
theorem c1_thm (st : St) :
    ((loadCachedCommands st).1 = false → (loadCachedCommands st).2.commands = st.commands) ∧
    (invalidRecord st.storage → (loadCachedCommands st).1 = false) ∧
    ((loadCachedCommands st).1 = true →
      ∃ v, st.storage = some (.ok v) ∧ v.commands = some (loadCachedCommands st).2.commands) := by
  unfold loadCachedCommands invalidRecord
  rcases hs : st.storage with _ | e
  · simp
  · rcases e with u | v
    · cases u; simp
    · rcases hv : v.commands with _ | cs
      · simp [hv]
      · rcases hvt : versionTruthy v.version with _ | _
        · simp [hv, hvt]
        · simp [hv, hvt]

/-- Witness for C1 at a concrete record lacking the version tag. -/
theorem c1_thm_witness :
    invalidRecord stNoVersion.storage ∧ (loadCachedCommands stNoVersion).1 = false ∧
    (loadCachedCommands stNoVersion).2.commands = stNoVersion.commands := by
  have h := c1_thm stNoVersion
  have hinv : invalidRecord stNoVersion.storage :=
    Or.inr (Or.inr ⟨noVersionCache, rfl, Or.inl rfl⟩)
  exact ⟨hinv, h.2.1 hinv, h.1 (h.2.1 hinv)⟩

/-- C2: when the discovery lock is already held, both `scanCommands` and
`discoverSubcommands` return immediately after posting a status message:
the command list, both progress counters, the probe trace, the
discovering marks, the lock and the persisted store are all unchanged
(the same guard appears verbatim in the deep engine). -/
theorem c2_thm (env : Env) (force : Bool) (idx : Nat) (st : St)
    (h : st.discoveryLock = true) :
    ((scanCommands env force st).commands = st.commands ∧
     (scanCommands env force st).progressCurrent = st.progressCurrent ∧
     (scanCommands env force st).progressTotal = st.progressTotal ∧
     (scanCommands env force st).sent = st.sent ∧
     (scanCommands env force st).discoveringSubcommands = st.discoveringSubcommands ∧
     (scanCommands env force st).discoveryLock = true ∧
     (scanCommands env force st).storage = st.storage) ∧
    ((discoverSubcommands env idx st).commands = st.commands ∧
     (discoverSubcommands env idx st).progressCurrent = st.progressCurrent ∧
     (discoverSubcommands env idx st).progressTotal = st.progressTotal ∧
     (discoverSubcommands env idx st).sent = st.sent ∧
     (discoverSubcommands env idx st).discoveringSubcommands = st.discoveringSubcommands ∧
     (discoverSubcommands env idx st).discoveryLock = true ∧
     (discoverSubcommands env idx st).storage = st.storage) := by
  unfold scanCommands discoverSubcommands
  cases hc : st.connected <;> simp [hc, h, showStatus]

/-- Witness for C2 on a concrete locked state. -/
theorem c2_thm_witness :
    stLocked.discoveryLock = true ∧
    (scanCommands baseEnv true stLocked).commands = stLocked.commands ∧
    (scanCommands baseEnv true stLocked).progressCurrent = stLocked.progressCurrent ∧
    (discoverSubcommands baseEnv 0 stLocked).sent = stLocked.sent :=
  ⟨rfl, (c2_thm baseEnv true 0 stLocked rfl).1.1,
    (c2_thm baseEnv true 0 stLocked rfl).1.2.1,
    (c2_thm baseEnv true 0 stLocked rfl).2.2.2.2.1⟩

/-- Claim C5, as stated, is false: a completed top-level parse of a help
response that lists the name `log` twice produces two sibling nodes both
named `log` - the parser performs no sibling deduplication. -/
theorem c5_counterexample :
    (parseHelpOutput "Available commands:\nlog : First\nlog : Second").map Cmd.name =
      ["log", "log"] ∧
    ¬ ((parseHelpOutput "Available commands:\nlog : First\nlog : Second").map Cmd.name).Nodup := by
  refine ⟨rfl, ?_⟩
  intro h
  rw [show (parseHelpOutput "Available commands:\nlog : First\nlog : Second").map Cmd.name =
    ["log", "log"] from rfl] at h
  simp at h

theorem dedupArgSpecs_names (ts : List (List Char)) :
    ∀ seen : List String,
      ((dedupArgSpecs ts seen).map ArgSpec.name).Nodup ∧
      ∀ n ∈ (dedupArgSpecs ts seen).map ArgSpec.name, ¬ n ∈ seen := by
  induction ts with
  | nil => intro seen; simp [dedupArgSpecs]
  | cons t ts ih =>
    intro seen
    by_cases h : cleanArgName t ∈ seen
    · have := ih seen
      simpa [dedupArgSpecs, h] using this
    · obtain ⟨hnd, havoid⟩ := ih (cleanArgName t :: seen)
      have hout : dedupArgSpecs (t :: ts) seen =
          { id := cleanArgName t, name := cleanArgName t,
            required := t.head? == some '<', «type» := "string",
            description := "" } :: dedupArgSpecs ts (cleanArgName t :: seen) := by
        simp [dedupArgSpecs, h]
      rw [hout]
      constructor
      · refine List.nodup_cons.2 ⟨?_, hnd⟩
        intro hmem
        exact (havoid _ hmem) (List.mem_cons_self _ _)
      · intro n hn
        rcases List.mem_cons.1 hn with h1 | h2
        · simp only [List.map_cons] at h1
          subst h1
          exact h
        · exact fun hmem => (havoid _ h2) (List.mem_cons_of_mem _ hmem)

/-- C6: on the help text `devmem <address> [<width>]` argument extraction
yields exactly a required `address` followed by an optional `width`, and
on every input the extracted argument names are free of duplicates
(first occurrence kept), by the seen-set in `parseArguments`. -/
theorem c6_thm :
    parseArguments "devmem <address> [<width>]" =
      [{ id := "address", name := "address", required := true,
         «type» := "string", description := "" },
       { id := "width", name := "width", required := false,
         «type» := "string", description := "" }] ∧
    ∀ helpText : String, ((parseArguments helpText).map ArgSpec.name).Nodup := by
  refine ⟨by decide, fun helpText => ?_⟩
  exact (dedupArgSpecs_names _ []).1

theorem wfsdGo_ok (buf : Nat → String) (timeout : Nat) :
    ∀ fuel k lastLen cnt, (wfsdGo buf timeout fuel k lastLen cnt).result = .ok () := by
  intro fuel
  induction fuel with
  | zero => intro k l c; rfl
  | succ fuel ih =>
    intro k l c
    simp only [wfsdGo]
    split_ifs <;> first | rfl | apply ih

theorem wfdcGo_error (buf : Nat → String) (timeout : Nat)
    (hp : ∀ k, parseHelpOutput (buf k) = []) :
    ∀ fuel k lastLen cnt, ∃ e, (wfdcGo buf timeout fuel k lastLen cnt).result = .error e := by
  intro fuel
  induction fuel with
  | zero => intro k l c; exact ⟨_, rfl⟩
  | succ fuel ih =>
    intro k l c
    simp only [wfdcGo, hp k]
    split_ifs <;> simp_all

/-- C8: the subcommand wait always resolves - every exit of its polling
loop, the hard timeout included, returns the buffered data and the
rejection continuation is never invoked - whereas the top-level wait
rejects with an error whenever no poll ever saw a parseable command
list. -/
theorem c8_thm :
    (∀ (buf : Nat → String) (timeout : Nat),
      (waitForSubcommandDiscovery buf timeout).result = .ok ()) ∧
    (∀ (buf : Nat → String) (timeout : Nat),
      (∀ k, parseHelpOutput (buf k) = []) →
      ∃ e, (waitForDiscoveryCompletion buf timeout).result = .error e) := by
  constructor
  · intro buf timeout
    exact wfsdGo_ok buf timeout _ 0 0 0
  · intro buf timeout hp
    exact wfdcGo_error buf timeout hp _ 0 0 0

/-- Witness for C8 on the constant empty buffer with the source call-site
timeouts. -/
theorem c8_thm_witness :
    (waitForSubcommandDiscovery (fun _ => "") 2000).result = .ok () ∧
    ∃ e, (waitForDiscoveryCompletion (fun _ => "") 300).result = .error e :=
  ⟨c8_thm.1 (fun _ => "") 2000, c8_thm.2 (fun _ => "") 300 (fun _ => rfl)⟩

theorem phoCont_names (fuel : Nat) : ∀ (rem : List String) (desc : String),
    lineNamesTop (phoCont fuel rem desc).2 = lineNamesTop rem := by
  induction fuel with
  | zero => intro rem desc; rfl
  | succ fuel ih =>
    intro rem desc
    cases rem with
    | nil => rfl
    | cons next rest =>
      simp only [phoCont]
      split_ifs with h1 h2
      · rfl
      · rfl
      · rw [ih]
        have hn : matchNameColon false next = none := by
          cases hm : matchNameColon false next with
          | none => rfl
          | some p => rw [hm] at h1; simp at h1
        simp [lineNamesTop, List.filterMap_cons, hn]

theorem phoGo_names_sublist (fuel : Nat) : ∀ (lines : List String) (inSec : Bool)
    (acc : List Cmd),
    ((phoGo fuel lines inSec acc).map Cmd.name).Sublist
      (acc.map Cmd.name ++ lineNamesTop lines) := by
  induction fuel with
  | zero => intro lines inSec acc; simp only [phoGo]; exact List.sublist_append_left _ _
  | succ fuel ih =>
    intro lines inSec acc
    cases lines with
    | nil => simp only [phoGo]; exact List.sublist_append_left _ _
    | cons line rest =>
      have hdrop : ∀ l : List String, (lineNamesTop l).Sublist (lineNamesTop (line :: l)) := by
        intro l
        cases hm : matchNameColon false line with
        | none => simp [lineNamesTop, List.filterMap_cons, hm]
        | some p => simp [lineNamesTop, List.filterMap_cons, hm]
      simp only [phoGo]
      split_ifs with hmarker hsec
      · exact (ih rest true acc).trans ((hdrop rest).append_left _)
      · cases hm : matchNameColon false line with
        | some p =>
          simp only [hm]
          have h := ih (phoCont (rest.length + 1) rest (trimJs p.2)).2 true
            (acc ++ [Cmd.mk p.1 p.1 none (phoCont (rest.length + 1) rest (trimJs p.2)).1 none ""
              (phoCont (rest.length + 1) rest (trimJs p.2)).1
              (parseArguments (phoCont (rest.length + 1) rest (trimJs p.2)).1) none none])
          rw [phoCont_names] at h
          have hln : lineNamesTop (line :: rest) = p.1 :: lineNamesTop rest := by
            simp [lineNamesTop, List.filterMap_cons, hm]
          rw [hln]
          simpa [Cmd.name] using h
        | none =>
          simp only [hm]
          exact (ih rest true acc).trans ((hdrop rest).append_left _)
      · exact (ih rest false acc).trans ((hdrop rest).append_left _)

theorem subLineMatch_none (l : String) (h1 : matchNameColon true l = none)
    (h2 : twoSpaceSplit l = none) : subLineMatch l = none := by
  simp [subLineMatch, h1, h2]

theorem psCont_names (fuel : Nat) : ∀ (rem : List String) (desc usage : String),
    lineNamesSub (psCont fuel rem desc usage).2.2 = lineNamesSub rem := by
  induction fuel with
  | zero => intro rem desc usage; rfl
  | succ fuel ih =>
    intro rem desc usage
    cases rem with
    | nil => rfl
    | cons next rest =>
      have key : matchNameColon true next = none → twoSpaceSplit next = none →
          lineNamesSub (next :: rest) = lineNamesSub rest := by
        intro hm ht
        simp [lineNamesSub, List.filterMap_cons, subLineMatch_none next hm ht]
      simp only [psCont]
      split_ifs with h1 h2 h3 h4 h5
      · rfl
      · rfl
      · rfl
      · rw [ih]
        refine (key ?_ ?_).symm
        · cases hm : matchNameColon true next with
          | none => rfl
          | some p => rw [hm] at h1; simp at h1
        · cases ht : twoSpaceSplit next with
          | none => rfl
          | some p => rw [ht] at h2; simp at h2
      · rw [ih]
        refine (key ?_ ?_).symm
        · cases hm : matchNameColon true next with
          | none => rfl
          | some p => rw [hm] at h1; simp at h1
        · cases ht : twoSpaceSplit next with
          | none => rfl
          | some p => rw [ht] at h2; simp at h2
      · rfl

theorem psGo_names_sublist (fuel : Nat) : ∀ (parent : String) (lines : List String)
    (inSec : Bool) (acc : List Cmd),
    ((psGo fuel parent lines inSec acc).map Cmd.name).Sublist
      (acc.map Cmd.name ++ lineNamesSub lines) := by
  induction fuel with
  | zero => intro parent lines inSec acc; simp only [psGo]; exact List.sublist_append_left _ _
  | succ fuel ih =>
    intro parent lines inSec acc
    cases lines with
    | nil => simp only [psGo]; exact List.sublist_append_left _ _
    | cons line rest =>
      have hdrop : ∀ l : List String, (lineNamesSub l).Sublist (lineNamesSub (line :: l)) := by
        intro l
        cases hm : subLineMatch line with
        | none => simp [lineNamesSub, List.filterMap_cons, hm]
        | some p => simp [lineNamesSub, List.filterMap_cons, hm]
      simp only [psGo]
      split_ifs with hmarker hsec
      · exact (ih parent rest true acc).trans ((hdrop rest).append_left _)
      · cases hm : subLineMatch line with
        | some p =>
          simp only [hm]
          have hln : lineNamesSub (line :: rest) = p.1 :: lineNamesSub rest := by
            simp [lineNamesSub, List.filterMap_cons, hm]
          split_ifs with hpar
          · rw [hln]
            exact (ih parent rest true acc).trans
              ((List.sublist_cons_self _ _).append_left _)
          · have h := ih parent (psCont (rest.length + 1) rest (trimJs p.2) "").2.2 true
              (acc ++ [Cmd.mk (parent ++ "_" ++ p.1) p.1 (some (parent ++ " " ++ p.1))
                (psCont (rest.length + 1) rest (trimJs p.2) "").1 (some parent)
                (psCont (rest.length + 1) rest (trimJs p.2) "").2.1
                ((psCont (rest.length + 1) rest (trimJs p.2) "").1 ++ " " ++
                  (psCont (rest.length + 1) rest (trimJs p.2) "").2.1)
                (parseArguments ((psCont (rest.length + 1) rest (trimJs p.2) "").1 ++ " " ++
                  (psCont (rest.length + 1) rest (trimJs p.2) "").2.1)) none none])
            rw [psCont_names] at h
            rw [hln]
            simpa [Cmd.name] using h
        | none =>
          simp only [hm]
          exact (ih parent rest true acc).trans ((hdrop rest).append_left _)
      · exact (ih parent rest false acc).trans ((hdrop rest).append_left _)

/-- C5 (amended): whenever the help text offers each sibling name at most
once (no two lines carry the same command name), the parsed top-level
command list and a parsed subcommand list have pairwise distinct names:
each parser emits names in an order-preserving selection of the per-line
names. -/
theorem c5_thm (topText subText parent : String)
    (htop : (lineNamesTop (toLines topText)).Nodup)
    (hsub : (lineNamesSub (toLines subText)).Nodup) :
    ((parseHelpOutput topText).map Cmd.name).Nodup ∧
    ((parseSubcommands subText parent).map Cmd.name).Nodup := by
  constructor
  · have h := phoGo_names_sublist ((toLines topText).length + 1) (toLines topText) false []
    simp only [List.map_nil, List.nil_append] at h
    exact h.nodup htop
  · unfold parseSubcommands
    dsimp only
    split_ifs
    · simp
    · have h := psGo_names_sublist ((toLines subText).length + 1) parent (toLines subText) false []
      simp only [List.map_nil, List.nil_append] at h
      exact h.nodup hsub

/-- Witness for C5 on concrete duplicate-free help texts. -/
theorem c5_thm_witness :
    (lineNamesTop (toLines "Available commands:\nlog : A\ndevice : B")).Nodup ∧
    ((parseHelpOutput "Available commands:\nlog : A\ndevice : B").map Cmd.name).Nodup ∧
    ((parseSubcommands "Subcommands:\nbackend : X\nenable : Y" "log").map Cmd.name).Nodup := by
  have h := c5_thm "Available commands:\nlog : A\ndevice : B"
    "Subcommands:\nbackend : X\nenable : Y" "log" (by decide) (by decide)
  exact ⟨by decide, h.1, h.2⟩

theorem withSubcommands_id (c : Cmd) (v : Option (List Cmd)) :
    (c.withSubcommands v).id = c.id := by cases c; rfl

theorem withSubcommands_name (c : Cmd) (v : Option (List Cmd)) :
    (c.withSubcommands v).name = c.name := by cases c; rfl

theorem withSubcommands_subList (c : Cmd) (v : Option (List Cmd)) :
    (c.withSubcommands v).subList = v.getD [] := by cases c; rfl

theorem withHasSubcommands_id (c : Cmd) (v : Option Bool) :
    (c.withHasSubcommands v).id = c.id := by cases c; rfl

theorem withHasSubcommands_name (c : Cmd) (v : Option Bool) :
    (c.withHasSubcommands v).name = c.name := by cases c; rfl

theorem withHasSubcommands_subList (c : Cmd) (v : Option Bool) :
    (c.withHasSubcommands v).subList = c.subList := by cases c; rfl

theorem cmdExt_refl (c : Cmd) : cmdExt c c := ⟨rfl, rfl, [], List.append_nil _⟩

theorem cmdExt_trans {a b c : Cmd} (h1 : cmdExt a b) (h2 : cmdExt b c) : cmdExt a c := by
  obtain ⟨i1, n1, t1, e1⟩ := h1
  obtain ⟨i2, n2, t2, e2⟩ := h2
  exact ⟨i2.trans i1, n2.trans n1, t1 ++ t2, by rw [← e2, ← e1, List.append_assoc]⟩

theorem catalogExt_refl (l : List Cmd) : catalogExt l l :=
  List.forall₂_same.2 (fun c _ => cmdExt_refl c)

theorem catalogExt_trans : ∀ {a b c : List Cmd}, catalogExt a b → catalogExt b c →
    catalogExt a c := by
  intro a b c h1 h2
  induction h1 generalizing c with
  | nil => cases h2; exact List.Forall₂.nil
  | cons hab h1 ih =>
    cases h2 with
    | cons hbc h2 => exact List.Forall₂.cons (cmdExt_trans hab hbc) (ih h2)

theorem catalogExt_set {l : List Cmd} {i : Nat} {c2 : Cmd}
    (h : cmdExt (l.getD i default) c2) : catalogExt l (l.set i c2) := by
  induction l generalizing i with
  | nil => exact List.Forall₂.nil
  | cons a l ih =>
    cases i with
    | zero => exact List.Forall₂.cons (by simpa using h) (catalogExt_refl l)
    | succ n => exact List.Forall₂.cons (cmdExt_refl a) (ih (by simpa using h))

theorem envStep_commands (env : Env) (st : St) :
    (Deep.envStep env st).commands = st.commands := by
  simp only [Deep.envStep, Deep.cancelDiscovery]
  split_ifs <;> rfl

theorem envStep_sent (env : Env) (st : St) :
    (Deep.envStep env st).sent = st.sent := by
  simp only [Deep.envStep, Deep.cancelDiscovery]
  split_ifs <;> rfl

theorem envStep_cancel_mono (env : Env) (st : St)
    (h : st.discoveryCancelRequested = true) :
    (Deep.envStep env st).discoveryCancelRequested = true := by
  simp only [Deep.envStep, Deep.cancelDiscovery]
  split_ifs <;> simp [h]

theorem setDiscovering_commands (id : String) (b : Bool) (st : St) :
    (setDiscovering id b st).commands = st.commands := rfl

theorem internalD_commands (env : Env) (cmd : Cmd) (st : St) :
    (Deep.discoverSubcommandsInternal env cmd st).2.commands = st.commands := by
  unfold Deep.discoverSubcommandsInternal sendDiscoveryCommand
  dsimp only
  split_ifs <;> (split <;> rfl)

theorem ensureSubList_ext (topIdx : Nat) (st : St) :
    catalogExt st.commands (Deep.ensureSubList topIdx st).commands := by
  unfold Deep.ensureSubList
  dsimp only
  split
  · next heq =>
    refine catalogExt_set ?_
    refine ⟨withSubcommands_id _ _, withSubcommands_name _ _, [], ?_⟩
    rw [withSubcommands_subList]
    simp only [Cmd.subList, heq]
    rfl
  · exact catalogExt_refl _

theorem pushSub_ext (topIdx : Nat) (x : Cmd) (st : St) :
    catalogExt st.commands
      (st.commands.set topIdx
        ((st.commands.getD topIdx default).withSubcommands
          (some ((st.commands.getD topIdx default).subList ++ [x])))) := by
  refine catalogExt_set ⟨withSubcommands_id _ _, withSubcommands_name _ _, [x], ?_⟩
  rw [withSubcommands_subList]
  rfl

theorem attachOne_ext (topIdx : Nat) (sub : Cmd) (st : St) :
    catalogExt st.commands (Deep.attachOne topIdx sub st).2.commands := by
  unfold Deep.attachOne
  dsimp only
  split_ifs with h
  · exact catalogExt_refl _
  · exact pushSub_ext _ _ _

theorem continueDiscovery_commands (st : St) :
    (Deep.continueDiscovery st).commands = st.commands := rfl

theorem cancelDiscovery_commands (st : St) :
    (Deep.cancelDiscovery st).commands = st.commands := rfl

theorem saveCached_commands (env : Env) (cs : List Cmd) (st : St) :
    (saveCachedCommands env cs st).commands = cs := rfl

theorem commands_eq_ext {st : St} {l : List Cmd} (h : l = st.commands) :
    catalogExt st.commands l := h ▸ catalogExt_refl _

theorem probe_ext_any (env : Env) (fuel topIdx : Nat) (cmd : Cmd) {st M : St}
    (ihP : ∀ (topIdx : Nat) (cmd : Cmd) (st : St),
      catalogExt st.commands (Deep.probeAndAttach env fuel topIdx cmd st).commands)
    (hM : M.commands = st.commands) :
    catalogExt st.commands (Deep.probeAndAttach env fuel topIdx cmd M).commands :=
  catalogExt_trans (commands_eq_ext hM) (ihP _ _ _)

theorem walk_ext (env : Env) : ∀ fuel : Nat,
    (∀ (topIdx : Nat) (subs : List Cmd) (st : St),
      catalogExt st.commands (Deep.attachSubs env fuel topIdx subs st).commands) ∧
    (∀ (topIdx : Nat) (cmd : Cmd) (st : St),
      catalogExt st.commands (Deep.probeAndAttach env fuel topIdx cmd st).commands) ∧
    (∀ (topIdx : Nat) (cmd : Cmd) (st : St),
      catalogExt st.commands (Deep.discoverDeep env fuel topIdx cmd st).commands) := by
  intro fuel
  induction fuel with
  | zero =>
    refine ⟨fun _ subs st => ?_, fun _ _ st => ?_, fun _ _ st => ?_⟩
    · simp only [Deep.attachSubs]; exact catalogExt_refl _
    · simp only [Deep.probeAndAttach]; exact catalogExt_refl _
    · simp only [Deep.discoverDeep]; exact catalogExt_refl _
  | succ fuel ih =>
    obtain ⟨ihA, ihP, ihD⟩ := ih
    refine ⟨fun topIdx subs st => ?_, fun topIdx cmd st => ?_, fun topIdx cmd st => ?_⟩
    · cases subs with
      | nil => simp only [Deep.attachSubs]; exact catalogExt_refl _
      | cons sub rest =>
        simp only [Deep.attachSubs]
        exact catalogExt_trans (attachOne_ext topIdx sub st)
          (catalogExt_trans (ihD topIdx _ _) (ihA topIdx rest _))
    · simp only [Deep.probeAndAttach]
      rw [setDiscovering_commands]
      split_ifs with h
      · rw [saveCached_commands]
        have h2 := ensureSubList_ext topIdx
          (Deep.discoverSubcommandsInternal env cmd (setDiscovering cmd.id true st)).2
        rw [internalD_commands, setDiscovering_commands] at h2
        refine catalogExt_trans h2 (catalogExt_trans (ihA topIdx _ _) (catalogExt_set ?_))
        exact ⟨withHasSubcommands_id _ _, withHasSubcommands_name _ _, [],
          by rw [withHasSubcommands_subList, List.append_nil]⟩
      · rw [internalD_commands, setDiscovering_commands]
        exact catalogExt_refl _
    · simp only [Deep.discoverDeep]
      split_ifs <;>
        (first
          | refine probe_ext_any env fuel topIdx cmd ihP ?_
          | refine commands_eq_ext ?_) <;>
        simp [continueDiscovery_commands, cancelDiscovery_commands, envStep_commands]

theorem discoverAllGo_ext (env : Env) (fuel : Nat) : ∀ (n i : Nat) (st : St),
    catalogExt st.commands (Deep.discoverAllGo env fuel n i st).commands := by
  intro n
  induction n with
  | zero => intro i st; exact catalogExt_refl _
  | succ n ih =>
    intro i st
    simp only [Deep.discoverAllGo]
    split_ifs with h1 h2
    · exact commands_eq_ext (envStep_commands env st)
    · exact catalogExt_trans (commands_eq_ext (envStep_commands env st))
        (catalogExt_trans ((walk_ext env fuel).2.2 i _ _) (ih (i + 1) _))
    · exact catalogExt_refl _

theorem discoverAllSubcommands_ext (env : Env) (fuel : Nat) (st : St) :
    catalogExt st.commands (Deep.discoverAllSubcommands env fuel st).commands := by
  unfold Deep.discoverAllSubcommands
  split_ifs with h0
  · exact catalogExt_refl _
  · exact discoverAllGo_ext env fuel _ 0 st

theorem discoverDeep_cancelled (env : Env) (fuel topIdx : Nat) (cmd : Cmd) (st : St)
    (h : st.discoveryCancelRequested = true) :
    (Deep.discoverDeep env fuel topIdx cmd st).commands = st.commands ∧
    (Deep.discoverDeep env fuel topIdx cmd st).sent = st.sent := by
  cases fuel with
  | zero => exact ⟨rfl, rfl⟩
  | succ fuel =>
    have h1 := envStep_cancel_mono env st h
    simp only [Deep.discoverDeep]
    rw [if_pos h1]
    exact ⟨envStep_commands env st, envStep_sent env st⟩

theorem discoverAllGo_cancelled (env : Env) (fuel : Nat) (n i : Nat) (st : St)
    (h : st.discoveryCancelRequested = true) :
    (Deep.discoverAllGo env fuel n i st).commands = st.commands ∧
    (Deep.discoverAllGo env fuel n i st).sent = st.sent := by
  cases n with
  | zero => exact ⟨rfl, rfl⟩
  | succ n =>
    have h1 := envStep_cancel_mono env st h
    simp only [Deep.discoverAllGo]
    by_cases hb : i < st.commands.length
    · rw [if_pos hb, if_pos h1]
      exact ⟨envStep_commands env st, envStep_sent env st⟩
    · rw [if_neg hb]
      exact ⟨rfl, rfl⟩

theorem discoverAllSubcommands_cancelled (env : Env) (fuel : Nat) (st : St)
    (h : st.discoveryCancelRequested = true) :
    (Deep.discoverAllSubcommands env fuel st).commands = st.commands ∧
    (Deep.discoverAllSubcommands env fuel st).sent = st.sent := by
  unfold Deep.discoverAllSubcommands
  split_ifs with h0
  · exact ⟨rfl, rfl⟩
  · exact discoverAllGo_cancelled env fuel _ 0 st h

theorem scanCommandsD_lock (env : Env) (fuel : Nat) (force : Bool) (st : St)
    (h : st.discoveryLock = false) :
    (Deep.scanCommands env fuel force st).discoveryLock = false := by
  unfold Deep.scanCommands
  dsimp only
  split_ifs <;>
    first
      | rfl
      | (split <;> rfl)
      | simpa [showStatus] using h

/-- C3: for every environment (hence for every point at which the user
requests cancellation), (1) a cancellation flag observed at a loop
boundary stops the walk with no further probe sent and no command-node
change, (2) the whole walk only ever extends the catalog - every
top-level node keeps its identity and its already-attached subcommand
prefix, with no rollback - and (3) a scan that starts with the lock free
ends with the lock free, through every path of `scanCommands` including
the cancelled one. -/
theorem c3_thm (env : Env) (fuel : Nat) (force : Bool) (st : St) :
    (st.discoveryCancelRequested = true →
      (Deep.discoverAllSubcommands env fuel st).commands = st.commands ∧
      (Deep.discoverAllSubcommands env fuel st).sent = st.sent ∧
      ∀ (topIdx : Nat) (cmd : Cmd),
        (Deep.discoverDeep env fuel topIdx cmd st).commands = st.commands ∧
        (Deep.discoverDeep env fuel topIdx cmd st).sent = st.sent) ∧
    catalogExt st.commands (Deep.discoverAllSubcommands env fuel st).commands ∧
    (st.discoveryLock = false →
      (Deep.scanCommands env fuel force st).discoveryLock = false) := by
  refine ⟨fun h => ⟨(discoverAllSubcommands_cancelled env fuel st h).1,
      (discoverAllSubcommands_cancelled env fuel st h).2,
      fun topIdx cmd => discoverDeep_cancelled env fuel topIdx cmd st h⟩,
    discoverAllSubcommands_ext env fuel st,
    fun h => scanCommandsD_lock env fuel force st h⟩

/-- Witness for C3 on a concrete cancelled walk state. -/
theorem c3_thm_witness :
    stCancelWalk.discoveryCancelRequested = true ∧
    (Deep.discoverAllSubcommands baseEnv 5 stCancelWalk).commands = stCancelWalk.commands ∧
    (Deep.discoverAllSubcommands baseEnv 5 stCancelWalk).sent = stCancelWalk.sent ∧
    catalogExt stCancelWalk.commands
      (Deep.discoverAllSubcommands baseEnv 5 stCancelWalk).commands ∧
    baseSt.discoveryLock = false ∧
    (Deep.scanCommands baseEnv 5 false baseSt).discoveryLock = false := by
  have h1 := c3_thm baseEnv 5 false stCancelWalk
  have h2 := c3_thm baseEnv 5 false baseSt
  exact ⟨rfl, (h1.1 rfl).1, (h1.1 rfl).2.1, h1.2.1, rfl, h2.2.2 rfl⟩

theorem discoverAllStep_skip (env : Env) (i : Nat) (st : St)
    (h : skipCond (st.commands.getD i default) = true) :
    discoverAllStep env i st = { st with progressCurrent := st.progressCurrent + 1 } := by
  rw [List.getD_eq_getElem?_getD] at h
  simp [discoverAllStep, h]

theorem discoverAllGo_allskip (env : Env) : ∀ (fuel i : Nat) (st : St),
    (∀ c ∈ st.commands, skipCond c = true) →
    (discoverAllGo env fuel i st).sent = st.sent ∧
    (discoverAllGo env fuel i st).commands = st.commands := by
  intro fuel
  induction fuel with
  | zero => intro i st h; exact ⟨rfl, rfl⟩
  | succ fuel ih =>
    intro i st h
    simp only [discoverAllGo]
    split_ifs with hb
    · have hmem : st.commands.getD i default ∈ st.commands := by
        rw [List.getD_eq_getElem?_getD, List.getElem?_eq_getElem hb]
        exact List.getElem_mem _
      have hstep := discoverAllStep_skip env i st (h _ hmem)
      rw [hstep]
      have hrec := ih (i + 1)
        { st with progressCurrent := st.progressCurrent + 1 } (by simpa using h)
      simpa using hrec
    · exact ⟨rfl, rfl⟩

/-- C10: a dequeued node whose `hasSubcommands` is already false or whose
`subcommands` are already populated makes the walk iteration a pure
progress increment - no probe line is written and no node state changes -
and a walk over only such nodes sends nothing at all. -/
theorem c10_thm (env : Env) (i : Nat) (st : St) (cmd : Cmd)
    (hget : st.commands[i]? = some cmd) (hskip : skipCond cmd = true) :
    discoverAllStep env i st = { st with progressCurrent := st.progressCurrent + 1 } ∧
    ((∀ c ∈ st.commands, skipCond c = true) →
      (discoverAllSubcommands env st).sent = st.sent ∧
      (discoverAllSubcommands env st).commands = st.commands) := by
  constructor
  · apply discoverAllStep_skip
    rw [List.getD_eq_getElem?_getD, hget]
    exact hskip
  · intro hall
    unfold discoverAllSubcommands
    split_ifs with h0
    · exact ⟨rfl, rfl⟩
    · have hrec := discoverAllGo_allskip env st.commands.length 0
        { st with progressTotal := st.commands.length, progressCurrent := 0 }
        (by simpa using hall)
      simpa using hrec

/-- Witness for C10 on a concrete already-determined leaf node. -/
theorem c10_thm_witness :
    stLeaves.commands[0]? = some leafCmd ∧ skipCond leafCmd = true ∧
    discoverAllStep baseEnv 0 stLeaves =
      { stLeaves with progressCurrent := stLeaves.progressCurrent + 1 } ∧
    (discoverAllSubcommands baseEnv stLeaves).sent = stLeaves.sent := by
  have h := c10_thm baseEnv 0 stLeaves leafCmd rfl rfl
  refine ⟨rfl, rfl, h.1, (h.2 ?_).1⟩
  intro c hc
  have hc2 : c = leafCmd := by simpa [stLeaves, baseSt] using hc
  rw [hc2]
  rfl
